import Mathlib

/-!
Verification development for the pmid-preprocess repository.

The frontend components (`EntriesBrowser.tsx`, `ReferenceInput.tsx`) are
embedded directly from the TypeScript source.  The backend modules
(`database.py`, `pubmed_search.py`, the job orchestrator in `app.py`) are not
part of the available sources; where a property depends on them they are
modelled from the design specification, and each such definition is marked
`Modelled from the spec:` in its doc comment.
-/

namespace Pmid

/-! ## ASCII character helpers

Shared helpers used to embed JavaScript string operations
(`toLowerCase`, `trim`, `includes`) at the character level. -/

/-- Is `c` an ASCII upper-case letter (codes 65–90)? -/
def isUpC (c : Char) : Bool := 65 ≤ c.toNat && c.toNat ≤ 90

/-- Is `c` an ASCII lower-case letter (codes 97–122)? -/
def isLoC (c : Char) : Bool := 97 ≤ c.toNat && c.toNat ≤ 122

/-- Is `c` an ASCII digit (codes 48–57)? -/
def isDigC (c : Char) : Bool := 48 ≤ c.toNat && c.toNat ≤ 57

/-- Is `c` a whitespace character (space, tab, line feed, carriage return)? -/
def isSpC (c : Char) : Bool :=
  c.toNat = 32 || c.toNat = 9 || c.toNat = 10 || c.toNat = 13

/-- ASCII lower-casing of one character, as performed by
JavaScript `toLowerCase` on ASCII input. -/
def lowerChar (c : Char) : Char :=
  if isUpC c then Char.ofNat (c.toNat + 32) else c

/-- ASCII lower-casing of a string. -/
def lowerStr (s : String) : String := String.mk (s.data.map lowerChar)

/-- Does `q` occur as a contiguous substring of `s`
(JavaScript `s.includes(q)`)? -/
def occursIn (s q : List Char) : Bool :=
  match s with
  | [] => q.isEmpty
  | _ :: t => List.isPrefixOf q s || occursIn t q

/-- JavaScript `String.prototype.trim` on ASCII whitespace:
drop whitespace from both ends. -/
def trimChars (l : List Char) : List Char :=
  ((l.dropWhile isSpC).reverse.dropWhile isSpC).reverse

/-! ## Entry data model

Embedded from the `Entry` interface of
`src/frontend/src/components/EntriesBrowser.tsx` (lines 7–22).
All fields are strings or booleans exactly as in the TypeScript interface;
an unset `pmid` is the empty string (the falsy case of the source's
truthiness tests). -/

structure Entry where
  pmid : String
  filename : String
  extraction_status : String
  txt_available : Bool
  pdf_available : Bool
  ref_available : Bool
  original_reference : String
  extracted_title : String
  found_title : String
  first_author : String
  journal : String
  year : String
  doi : String
  created_at : String
deriving DecidableEq

/-! ## EntriesBrowser filtering (from `filterEntries`, lines 63–111) -/

/-- The search predicate of `filterEntries`: the lower-cased query occurs in
one of extracted title, found title, first author, pmid, or journal
(each lower-cased).  `query` is expected already lower-cased, as in the
source (`const query = searchQuery.toLowerCase()`). -/
def searchMatches (query : String) (e : Entry) : Bool :=
  occursIn (lowerStr e.extracted_title).data query.data ||
  occursIn (lowerStr e.found_title).data query.data ||
  occursIn (lowerStr e.first_author).data query.data ||
  occursIn (lowerStr e.pmid).data query.data ||
  occursIn (lowerStr e.journal).data query.data

/-- The inner switch of the status filter (applied only when
`statusFilter !== 'all'`). -/
def statusSwitch (statusFilter : String) (e : Entry) : Bool :=
  if statusFilter = "success" then e.extraction_status == "success"
  else if statusFilter = "failed" then !(e.extraction_status == "success")
  else true

/-- The inner switch of the content filter (applied only when
`contentFilter !== 'all'`). -/
def contentSwitch (contentFilter : String) (e : Entry) : Bool :=
  if contentFilter = "txt" then e.txt_available
  else if contentFilter = "pdf" then e.pdf_available
  else if contentFilter = "both" then e.txt_available && e.pdf_available
  else if contentFilter = "none" then !e.txt_available && !e.pdf_available
  else true

/-- Function `filterEntries` from `EntriesBrowser.tsx`: copy the entries, then apply
the search filter when the trimmed query is non-empty, then the status
filter when not `'all'`, then the content filter when not `'all'`. -/
def filterEntries (searchQuery statusFilter contentFilter : String)
    (entries : List Entry) : List Entry :=
  let f1 := if String.mk (trimChars searchQuery.data) ≠ "" then
      entries.filter (searchMatches (lowerStr searchQuery)) else entries
  let f2 := if statusFilter ≠ "all" then
      f1.filter (statusSwitch statusFilter) else f1
  let f3 := if contentFilter ≠ "all" then
      f2.filter (contentSwitch contentFilter) else f2
  f3

/-- The effective search predicate including the activation guard. -/
def searchKeep (searchQuery : String) (e : Entry) : Bool :=
  if String.mk (trimChars searchQuery.data) ≠ "" then
    searchMatches (lowerStr searchQuery) e else true

/-- The effective status predicate including the `'all'` guard. -/
def statusKeep (statusFilter : String) (e : Entry) : Bool :=
  if statusFilter ≠ "all" then statusSwitch statusFilter e else true

/-- The effective content predicate including the `'all'` guard. -/
def contentKeep (contentFilter : String) (e : Entry) : Bool :=
  if contentFilter ≠ "all" then contentSwitch contentFilter e else true

/-- Function `getContentBadges` from `EntriesBrowser.tsx` (lines 131–146), with each
badge represented by its `key` string. -/
def getContentBadges (e : Entry) : List String :=
  let badges :=
    (if e.txt_available then ["txt"] else []) ++
    (if e.pdf_available then ["pdf"] else []) ++
    (if e.ref_available then ["ref"] else [])
  if badges.isEmpty then ["none"] else badges

/-! ## Entry deletion (from `confirmDelete`, lines 211–232) -/

/-- The delete request issued by `confirmDelete`. -/
inductive DeleteRequest where
  | byKey (pmid : String)
  | byTimestamp (created_at : String)
deriving DecidableEq

/-- Function `confirmDelete` routing: delete by PMID when `entry.pmid` is truthy
(non-empty), otherwise delete by the `created_at` timestamp. -/
def confirmDelete (e : Entry) : DeleteRequest :=
  if e.pmid ≠ "" then DeleteRequest.byKey e.pmid
  else DeleteRequest.byTimestamp e.created_at

/-! ## Entry Store -/

/-- Store-level errors. -/
inductive StoreError where
  | DuplicateKeyError
deriving DecidableEq

namespace EntryStore

/-- Modelled from the spec: the Entry Store state of the missing backend
`database.py`, the ordered sequence of persisted entries. -/
abbrev Store := List Entry

/-- Modelled from the spec: `insert(entry)` of the missing backend
`database.py` — fails with `DuplicateKeyError` if `entry.pmid` is set and
already present, otherwise appends the entry. -/
def insert (s : Store) (e : Entry) : Except StoreError Store :=
  if e.pmid ≠ "" && s.any (fun x => x.pmid == e.pmid) then
    Except.error StoreError.DuplicateKeyError
  else Except.ok (s ++ [e])

/-- Modelled from the spec: `deleteByKey(pmid)` of the missing backend
`database.py` — removes the entries whose key is the given pmid. -/
def deleteByKey (s : Store) (p : String) : Store :=
  s.filter (fun e => !(e.pmid == p))

/-- Modelled from the spec: `deleteByTimestamp(createdAt)` of the missing
backend `database.py` — removes exactly the entries whose `createdAt`
equals the given timestamp (all of them on a collision). -/
def deleteByTimestamp (s : Store) (ts : String) : Store :=
  s.filter (fun e => !(e.created_at == ts))

/-- Modelled from the spec: `list()` of the missing backend `database.py`
without a filter — returns the stored sequence of entries. -/
def listAll (s : Store) : List Entry := s

/-- Modelled from the spec: the store states reachable from the empty store
by the mutating operations of the missing backend `database.py`. -/
inductive Reachable : Store → Prop where
  | empty : Reachable []
  | insert_ok {s s' : Store} {e : Entry} :
      Reachable s → insert s e = Except.ok s' → Reachable s'
  | delKey {s : Store} (p : String) : Reachable s → Reachable (deleteByKey s p)
  | delTs {s : Store} (ts : String) : Reachable s → Reachable (deleteByTimestamp s ts)

/-- Number of stored entries carrying the pmid `p`. -/
def countPmid (s : Store) (p : String) : Nat :=
  (s.filter (fun e => e.pmid == p)).length

end EntryStore

/-! ## Job data model and orchestrator state machine -/

/-- Job statuses, the closed set of §3 of the design
(`pending, processing, completed, failed, cancelled`). -/
inductive JobStatus where
  | pending
  | processing
  | completed
  | failed
  | cancelled
deriving DecidableEq

/-- The per-job progress counters of §3. -/
structure Job where
  status : JobStatus
  totalRefs : Nat
  processedRefs : Nat
  completedRefs : Nat
  failedRefs : Nat
deriving DecidableEq

/-- Outcome of one processed item. -/
inductive ItemOutcome where
  | itemCompleted
  | itemFailed
deriving DecidableEq

/-- Modelled from the spec: job creation by the missing backend
orchestrator — a job starts `pending` with all counters zero. -/
def mkJob (n : Nat) : Job :=
  { status := JobStatus.pending, totalRefs := n, processedRefs := 0,
    completedRefs := 0, failedRefs := 0 }

/-- Modelled from the spec: the transition rules of the missing backend
orchestrator state machine (§4.6) —
`pending → processing` on first item start; `processing → processing`
incrementing `processedRefs` and one of `completedRefs`/`failedRefs` per
item outcome; `processing → completed` once every item's outcome is
recorded; `processing → cancelled` on a cancellation request;
`pending/processing → failed` on an orchestration-level defect.
Terminal states are final: no rule leaves them. -/
inductive JobStep : Job → Job → Prop where
  | start {j : Job} :
      j.status = JobStatus.pending →
      JobStep j { j with status := JobStatus.processing }
  | item {j : Job} (o : ItemOutcome) :
      j.status = JobStatus.processing →
      j.processedRefs < j.totalRefs →
      JobStep j { j with
        processedRefs := j.processedRefs + 1,
        completedRefs :=
          j.completedRefs + (if o = ItemOutcome.itemCompleted then 1 else 0),
        failedRefs :=
          j.failedRefs + (if o = ItemOutcome.itemFailed then 1 else 0) }
  | finish {j : Job} :
      j.status = JobStatus.processing →
      j.processedRefs = j.totalRefs →
      JobStep j { j with status := JobStatus.completed }
  | cancel {j : Job} :
      j.status = JobStatus.processing →
      JobStep j { j with status := JobStatus.cancelled }
  | orchFail {j : Job} :
      j.status = JobStatus.pending ∨ j.status = JobStatus.processing →
      JobStep j { j with status := JobStatus.failed }

/-- Modelled from the spec: the jobs reachable from a fresh job by the
orchestrator's transition rules. -/
inductive JobReachable : Job → Prop where
  | create (n : Nat) : JobReachable (mkJob n)
  | step {j j' : Job} : JobReachable j → JobStep j j' → JobReachable j'

/-! ## Polling client (from `ReferenceInput.tsx`, `src/unnamed/part_000`) -/

/-- Predicate `isJobActive` (line 167): a job is active when its status is
`pending` or `processing`. -/
def isJobActive (s : JobStatus) : Bool :=
  s == JobStatus.pending || s == JobStatus.processing

/-- The stopping test of `startPolling` (line 64): polling stops when the
observed status is `completed`, `failed` or `cancelled`. -/
def pollStops (s : JobStatus) : Bool :=
  s == JobStatus.completed || s == JobStatus.failed || s == JobStatus.cancelled

/-- Whether the `n`-th poll of `startPolling` is issued, given the status
`f k` observed by the `k`-th poll: the interval is cleared as soon as a
stopping status is observed, so poll `n` happens exactly when no earlier
poll observed one. -/
def pollIssued (f : Nat → JobStatus) (n : Nat) : Bool :=
  (List.range n).all (fun k => !pollStops (f k))

/-! ## Client submission guard (from `handleSubmit` in
`src/unnamed/part_000` lines 76–113 and `src/unnamed/part_001`
lines 22–46) -/

/-- The visible effect of the client `handleSubmit`. -/
inductive ClientAction where
  | showError
  | postProcessReferences (refs : String)
deriving DecidableEq

/-- Function `handleSubmit`: if the trimmed references text is falsy (empty), set an
error message and return without any request; otherwise issue the
`process-references` request with the raw text. -/
def handleSubmit (referencesText : String) : ClientAction :=
  if trimChars referencesText.data = [] then ClientAction.showError
  else ClientAction.postProcessReferences referencesText

/-! ## Segmenter and submission -/

/-- One citation item produced by the segmenter (§3). -/
structure ReferenceItem where
  index : Nat
  rawText : String
deriving DecidableEq

/-- Errors surfaced by `submit`. -/
inductive SubmitError where
  | ParsingError
deriving DecidableEq

/-- Split a character stream into lines at line feeds. -/
def splitNl (l : List Char) : List (List Char) :=
  match l with
  | [] => [[]]
  | c :: t =>
    let r := splitNl t
    if c.toNat = 10 then [] :: r
    else (c :: r.headI) :: r.tail

/-- Is the line blank (whitespace only)? -/
def blankLine (l : List Char) : Bool := (l.dropWhile isSpC).isEmpty

/-- Does the line start (after leading whitespace) with a numbered-list
marker, one or more digits followed by a period? -/
def lineHasMarker (l : List Char) : Bool :=
  match l.dropWhile isSpC with
  | [] => false
  | c :: t => isDigC c && markerTail t
where
  /-- After the first digit: further digits, then a period. -/
  markerTail : List Char → Bool
    | [] => false
    | c :: t => if isDigC c then markerTail t else c.toNat = 46

/-- Accumulate lines into the current citation until the next marker. -/
def groupAux (cur : List Char) : List (List Char) → List (List Char)
  | [] => [cur]
  | l :: rest =>
    if lineHasMarker l then cur :: groupAux l rest
    else groupAux (cur ++ Char.ofNat 32 :: l) rest

/-- Modelled from the spec: the grouping pass of the missing backend
segmenter — lines before the first marker are skipped, each marker opens a
new citation, and subsequent lines are merged into the current citation
until the next marker. -/
def groupByMarker (lines : List (List Char)) : List (List Char) :=
  match lines.dropWhile (fun l => !lineHasMarker l) with
  | [] => []
  | l :: rest => groupAux l rest

/-- Modelled from the spec: `segment(rawText)` of the missing backend
segmenter (§4.1) — split into lines; when numbered markers are present,
group lines into one citation per marker; otherwise fall back to one item
per non-blank line; items are indexed sequentially from 0. -/
def segment (rawText : String) : List ReferenceItem :=
  let lines := splitNl rawText.data
  let pieces :=
    if lines.any lineHasMarker then groupByMarker lines
    else lines.filter (fun l => !blankLine l)
  (pieces.enum.map (fun p => { index := p.1, rawText := String.mk p.2 }))

/-- Modelled from the spec: `submit(rawText)` of the missing backend
orchestrator (§6) — fails synchronously with `ParsingError` when
segmentation yields zero items, so that no job is created; otherwise a
fresh pending job over the segmented items is created. -/
def submit (rawText : String) : Except SubmitError Job :=
  let items := segment rawText
  if items.isEmpty then Except.error SubmitError.ParsingError
  else Except.ok (mkJob items.length)

/-- Whitespace-only input: every character is ASCII whitespace. -/
def whitespaceOnly (s : String) : Prop := ∀ c ∈ s.data, isSpC c = true

/-! ## Word-overlap scorer (Resolver, §4.3)

The matching code of the missing backend `pubmed_search.py` is modelled
from the spec.  Tokenization is represented over character codes: letters
are lower-cased, digits kept, whitespace becomes the separator code `0`,
and punctuation is dropped ("ignoring common stopwords and punctuation"). -/

/-- Modelled from the spec: normalization of one character by the missing
backend scorer — upper-case letters fold to lower case, lower-case letters
and digits map to their own code, whitespace maps to the separator code
`0`, and any other (punctuation) character is dropped. -/
def normCode (c : Char) : Option Nat :=
  if isUpC c then some (c.toNat + 32)
  else if isLoC c || isDigC c then some c.toNat
  else if isSpC c then some 0
  else none

/-- Normalized code stream of a character list. -/
def normCodes (l : List Char) : List Nat := l.filterMap normCode

/-- Split a code stream into words at the separator code `0`,
dropping empty words. -/
def splitSepAux (cur : List Nat) : List Nat → List (List Nat)
  | [] => if cur.isEmpty then [] else [cur.reverse]
  | n :: rest =>
    if n = 0 then
      if cur.isEmpty then splitSepAux [] rest
      else cur.reverse :: splitSepAux [] rest
    else splitSepAux (n :: cur) rest

/-- The words of a code stream. -/
def splitSep (l : List Nat) : List (List Nat) := splitSepAux [] l

/-- Modelled from the spec: the common stopwords ignored by the missing
backend scorer, as normalized code words. -/
def stopCodes : List (List Nat) :=
  ["a", "an", "the", "and", "or", "of", "in", "on", "at", "for", "with",
   "to", "by", "from", "is", "are"].map (fun w => normCodes w.data)

/-- Modelled from the spec: the non-stopword token set of a title used by
the missing backend scorer — lower-case, drop punctuation, split into
words, remove stopwords, collect as a set. -/
def tokensOf (s : String) : Finset (List Nat) :=
  ((splitSep (normCodes s.data)).filter (fun w => !stopCodes.contains w)).toFinset

/-- Modelled from the spec: the word-overlap score of the missing backend
scorer — `|intersection| / |union|` of the two non-stopword token sets
(Jaccard-style), as a rational number. -/
def wordOverlapScore (t1 t2 : String) : ℚ :=
  ((tokensOf t1 ∩ tokensOf t2).card : ℚ) / ((tokensOf t1 ∪ tokensOf t2).card : ℚ)

/-- Toggle the case of an ASCII letter; other characters are unchanged. -/
def toggleCase (c : Char) : Char :=
  if isUpC c then Char.ofNat (c.toNat + 32)
  else if isLoC c then Char.ofNat (c.toNat - 32)
  else c

/-- Alter the letter case of a string at the positions selected by the
mask.  An arbitrary change of letter case is `applyCaseMask m` for some
mask `m`. -/
def applyCaseMask : List Bool → List Char → List Char
  | _, [] => []
  | [], l => l
  | b :: m, c :: l => (if b then toggleCase c else c) :: applyCaseMask m l

/-- Remove the punctuation characters (those the normalization drops)
from a string. -/
def stripPunct (s : String) : String :=
  String.mk (s.data.filter (fun c => (normCode c).isSome))

/-! ## Resolver decision policy (§4.3) -/

/-- One record returned by the bibliographic search (§3). -/
structure MatchCandidate where
  identifier : String
  foundTitle : String
  doi : Option String
  journal : Option String
  year : Option String
deriving DecidableEq

/-- Resolution statuses (§3). -/
inductive ResolutionStatus where
  | matched
  | noMatch
  | searchError
deriving DecidableEq

/-- Outcome of matching for one item (§3). -/
structure ResolutionResult where
  status : ResolutionStatus
  best : Option MatchCandidate
  score : ℚ
deriving DecidableEq

/-- Modelled from the spec: the match threshold of the missing backend
resolver (design default 0.5). -/
def matchThreshold : ℚ := 1 / 2

/-- The word-overlap score of a candidate against the query title. -/
def scoreOf (title : String) (c : MatchCandidate) : ℚ :=
  wordOverlapScore title c.foundTitle

/-- Modelled from the spec: best-candidate selection of the missing
backend resolver — scan the candidates in search order, replacing the
current best only on a strictly higher score, so that on a tie the
earlier-ranked candidate is kept. -/
def argAux (f : MatchCandidate → ℚ) (best : MatchCandidate) :
    List MatchCandidate → MatchCandidate
  | [] => best
  | c :: cs => if f best < f c then argAux f c cs else argAux f best cs

/-- The highest candidate score, starting from the score of `b`. -/
def maxSc (f : MatchCandidate → ℚ) (b : MatchCandidate)
    (l : List MatchCandidate) : ℚ :=
  l.foldl (fun a x => max a (f x)) (f b)

/-- Modelled from the spec: `resolve(title)` of the missing backend
resolver applied to the candidate list returned by the search — with no
candidates the result is `noMatch`; otherwise the best-scoring candidate
is selected and the result is `matched` exactly when its score reaches
the threshold, else `noMatch` ("a low-confidence hit is treated as
equivalent to no result"). -/
def resolve (title : String) (cs : List MatchCandidate) : ResolutionResult :=
  match cs with
  | [] => { status := ResolutionStatus.noMatch, best := none, score := 0 }
  | c :: rest =>
    let b := argAux (scoreOf title) c rest
    if matchThreshold ≤ scoreOf title b then
      { status := ResolutionStatus.matched, best := some b,
        score := scoreOf title b }
    else
      { status := ResolutionStatus.noMatch, best := none,
        score := scoreOf title b }

/-! ## Shared sample data and helper lemmas -/

/-- A sample successful entry with pmid `"123"`. -/
def sampleEntry : Entry :=
  { pmid := "123", filename := "Smith_123", extraction_status := "success",
    txt_available := true, pdf_available := true, ref_available := false,
    original_reference := "1. Smith J. Title Alpha. 2020.",
    extracted_title := "Title Alpha", found_title := "Title Alpha",
    first_author := "Smith", journal := "J", year := "2020", doi := "d",
    created_at := "2020-01-01T00:00:00" }

/-- A sample failed entry with no pmid and only a reference list available. -/
def failedEntry : Entry :=
  { pmid := "", filename := "", extraction_status := "pubmed_search_failed",
    txt_available := false, pdf_available := false, ref_available := true,
    original_reference := "2. Doe J. Title Beta. 2021.",
    extracted_title := "Title Beta", found_title := "",
    first_author := "Doe", journal := "", year := "", doi := "",
    created_at := "2021-01-01T00:00:00" }

/-- Membership in `filterEntries` is the conjunction of membership in the
input and the three effective predicates. -/
theorem mem_filterEntries (q st ct : String) (entries : List Entry) (e : Entry) :
    e ∈ filterEntries q st ct entries ↔
      e ∈ entries ∧ searchKeep q e = true ∧ statusKeep st e = true ∧
        contentKeep ct e = true := by
  unfold filterEntries searchKeep statusKeep contentKeep
  by_cases h1 : String.mk (trimChars q.data) ≠ "" <;>
    by_cases h2 : st ≠ "all" <;>
      by_cases h3 : ct ≠ "all" <;>
        simp [h1, h2, h3, List.mem_filter, and_assoc, and_comm, and_left_comm]

/-- A guarded filter pass returns a sublist of its input. -/
theorem condFilter_sublist (p : Entry → Bool) (c : Prop) [Decidable c]
    (l : List Entry) : (if c then l.filter p else l).Sublist l := by
  split
  · exact List.filter_sublist l
  · exact List.Sublist.refl l

/-! ## Claim theorems -/

/-- C3: Entry list filtering is conjunctive — an entry appears in
`filterEntries` exactly when it is in the input and satisfies the search
predicate AND the status predicate AND the content predicate. -/
theorem filterEntries_conjunctive (q st ct : String) (entries : List Entry)
    (e : Entry) :
    e ∈ filterEntries q st ct entries ↔
      e ∈ entries ∧ searchKeep q e = true ∧ statusKeep st e = true ∧
        contentKeep ct e = true :=
  mem_filterEntries q st ct entries e

/-- C10: `filterEntries` is an order-preserving selection — its result is a
sublist of the input (no reordering, duplication or modification) — and
with a blank query and both filters `'all'` it returns the input
unchanged. -/
theorem filterEntries_sublist_and_identity (q st ct : String)
    (entries : List Entry) :
    (filterEntries q st ct entries).Sublist entries ∧
      (String.mk (trimChars q.data) = "" → st = "all" → ct = "all" →
        filterEntries q st ct entries = entries) := by
  constructor
  · unfold filterEntries
    exact (condFilter_sublist _ _ _).trans
      ((condFilter_sublist _ _ _).trans (condFilter_sublist _ _ _))
  · intro h1 h2 h3
    unfold filterEntries
    simp [h1, h2, h3]

/-- Witness for C10 at concrete input. -/
theorem filterEntries_sublist_and_identity_witness :
    (filterEntries "" "all" "all" [sampleEntry]).Sublist [sampleEntry] ∧
      filterEntries "" "all" "all" [sampleEntry] = [sampleEntry] := by
  have h := filterEntries_sublist_and_identity "" "all" "all" [sampleEntry]
  exact ⟨h.1, h.2 (by decide) rfl rfl⟩

/-- C9: the content filter inspects only `txt_available` and
`pdf_available` — an entry whose only artifact is the reference list is
kept by the `'none'` filter and rejected by the `'both'` filter, while the
badge rendering still shows a REF badge for it. -/
theorem contentFilter_ignores_ref (e : Entry) (entries : List Entry)
    (he : e ∈ entries) (h1 : e.txt_available = false)
    (h2 : e.pdf_available = false) (h3 : e.ref_available = true) :
    e ∈ filterEntries "" "all" "none" entries ∧
      e ∉ filterEntries "" "all" "both" entries ∧
      "ref" ∈ getContentBadges e := by
  refine ⟨?_, ?_, ?_⟩
  · exact (mem_filterEntries _ _ _ _ _).mpr
      ⟨he, by simp [searchKeep, trimChars],
        by simp [statusKeep],
        by simp [contentKeep, contentSwitch, h1, h2]⟩
  · intro hmem
    have h := (mem_filterEntries _ _ _ _ _).mp hmem
    have hc := h.2.2.2
    simp [contentKeep, contentSwitch, h1, h2] at hc
  · simp [getContentBadges, h1, h2, h3]

/-- Witness for C9 at concrete input. -/
theorem contentFilter_ignores_ref_witness :
    failedEntry ∈ filterEntries "" "all" "none" [failedEntry] ∧
      failedEntry ∉ filterEntries "" "all" "both" [failedEntry] ∧
      "ref" ∈ getContentBadges failedEntry :=
  contentFilter_ignores_ref failedEntry [failedEntry] (by decide) rfl rfl rfl

/-- C7: deletion is routed by key presence — `confirmDelete` issues a
by-pmid request when the pmid is set and a by-timestamp request otherwise,
and `deleteByTimestamp` removes exactly the entries whose `created_at`
equals the given timestamp. -/
theorem delete_routing (e1 e2 : Entry) (s : EntryStore.Store) (ts : String)
    (x : Entry) (h1 : e1.pmid ≠ "") (h2 : e2.pmid = "") :
    confirmDelete e1 = DeleteRequest.byKey e1.pmid ∧
      confirmDelete e2 = DeleteRequest.byTimestamp e2.created_at ∧
      (x ∈ EntryStore.deleteByTimestamp s ts ↔ x ∈ s ∧ x.created_at ≠ ts) := by
  refine ⟨?_, ?_, ?_⟩
  · simp [confirmDelete, h1]
  · simp [confirmDelete, h2]
  · simp [EntryStore.deleteByTimestamp, List.mem_filter]

/-- Witness for C7 at concrete input. -/
theorem delete_routing_witness :
    confirmDelete sampleEntry = DeleteRequest.byKey sampleEntry.pmid ∧
      confirmDelete failedEntry =
        DeleteRequest.byTimestamp failedEntry.created_at ∧
      (sampleEntry ∈ EntryStore.deleteByTimestamp [sampleEntry] "x" ↔
        sampleEntry ∈ [sampleEntry] ∧ sampleEntry.created_at ≠ "x") :=
  delete_routing sampleEntry failedEntry [sampleEntry] "x" sampleEntry
    (by decide) rfl

/-- In every reachable store state there is at most one entry per set
pmid. -/
theorem reachable_countPmid_le_one {s : EntryStore.Store}
    (hr : EntryStore.Reachable s) (p : String) (hp : p ≠ "") :
    EntryStore.countPmid s p ≤ 1 := by
  induction hr with
  | empty => simp [EntryStore.countPmid]
  | @insert_ok s s' e _ hok ih =>
    unfold EntryStore.insert at hok
    split at hok
    · exact absurd hok (by simp)
    · rename_i hcond
      injection hok with hs'
      subst hs'
      simp only [Bool.and_eq_true, decide_eq_true_eq, not_and] at hcond
      unfold EntryStore.countPmid at ih ⊢
      rw [List.filter_append, List.length_append]
      by_cases hep : e.pmid = p
      · have hne : e.pmid ≠ "" := hep ▸ hp
        have hany := hcond hne
        rw [List.any_eq_true] at hany
        push_neg at hany
        have hzero : (s.filter fun x => x.pmid == p).length = 0 := by
          rw [List.length_eq_zero, List.filter_eq_nil_iff]
          intro x hx
          have hxe := hany x hx
          rw [hep] at hxe
          simpa using hxe
        simp [hzero, hep]
      · simp [hep, ih]
  | @delKey s p' _ ih =>
    have hsub := (List.filter_sublist (l := s)
      (p := fun e => !(e.pmid == p'))).filter (fun e => e.pmid == p)
    exact le_trans hsub.length_le ih
  | @delTs s ts _ ih =>
    have hsub := (List.filter_sublist (l := s)
      (p := fun e => !(e.created_at == ts))).filter (fun e => e.pmid == p)
    exact le_trans hsub.length_le ih

/-- C1: Entry Store deduplication — starting from a state without the key,
the first insert succeeds and a second insert of the same set pmid fails
with `DuplicateKeyError`; every reachable state has at most one entry per
pmid; and listing after `deleteByKey` returns no entry with that pmid. -/
theorem store_dedup (s : EntryStore.Store) (e1 e2 : Entry)
    (s2 : EntryStore.Store) (p : String) (s3 : EntryStore.Store)
    (p3 : String) (x : Entry)
    (h1 : e1.pmid ≠ "") (h2 : e2.pmid = e1.pmid)
    (hno : ∀ y ∈ s, y.pmid ≠ e1.pmid)
    (hr : EntryStore.Reachable s2) (hp : p ≠ "")
    (hx : x ∈ EntryStore.listAll (EntryStore.deleteByKey s3 p3)) :
    EntryStore.insert s e1 = Except.ok (s ++ [e1]) ∧
      EntryStore.insert (s ++ [e1]) e2 =
        Except.error StoreError.DuplicateKeyError ∧
      EntryStore.countPmid s2 p ≤ 1 ∧
      x.pmid ≠ p3 := by
  refine ⟨?_, ?_, reachable_countPmid_le_one hr p hp, ?_⟩
  · have hany : (s.any fun y => y.pmid == e1.pmid) = false := by
      rw [List.any_eq_false]
      intro y hy
      simp only [beq_iff_eq]
      exact hno y hy
    simp [EntryStore.insert, hany]
  · simp [EntryStore.insert, List.any_append, h2, h1]
  · simp only [EntryStore.listAll, EntryStore.deleteByKey,
      List.mem_filter, Bool.not_eq_true', beq_eq_false_iff_ne] at hx
    exact hx.2

/-- Witness for C1 at concrete input. -/
theorem store_dedup_witness :
    EntryStore.insert [] sampleEntry = Except.ok ([] ++ [sampleEntry]) ∧
      EntryStore.insert ([] ++ [sampleEntry]) sampleEntry =
        Except.error StoreError.DuplicateKeyError ∧
      EntryStore.countPmid [] "123" ≤ 1 ∧
      sampleEntry.pmid ≠ "999" :=
  store_dedup [] sampleEntry sampleEntry [] "123" [sampleEntry] "999"
    sampleEntry (by decide) rfl (by intro y hy; cases hy)
    EntryStore.Reachable.empty (by decide) (by decide)

/-- C2: the job progress invariant holds in every reachable job state, and
a completed job has processed every item. -/
theorem job_progress {j : Job} (h : JobReachable j) :
    (j.completedRefs + j.failedRefs ≤ j.processedRefs ∧
      j.processedRefs ≤ j.totalRefs) ∧
    (j.status = JobStatus.completed → j.processedRefs = j.totalRefs) := by
  induction h with
  | create n => simp [mkJob]
  | @step j j' _ hs ih =>
    obtain ⟨⟨ih1, ih2⟩, ih3⟩ := ih
    cases hs with
    | start hp =>
      refine ⟨⟨ih1, ih2⟩, ?_⟩
      simp [hp]
    | item o hp hlt =>
      refine ⟨⟨?_, ?_⟩, ?_⟩
      · simp only
        cases o <;> simp <;> omega
      · simp only
        omega
      · simp [hp]
    | finish hp heq =>
      exact ⟨⟨ih1, ih2⟩, fun _ => heq⟩
    | cancel hp =>
      refine ⟨⟨ih1, ih2⟩, ?_⟩
      simp
    | orchFail hp =>
      refine ⟨⟨ih1, ih2⟩, ?_⟩
      simp

/-- Witness for C2 at concrete input. -/
theorem job_progress_witness :
    ((mkJob 2).completedRefs + (mkJob 2).failedRefs ≤ (mkJob 2).processedRefs ∧
      (mkJob 2).processedRefs ≤ (mkJob 2).totalRefs) ∧
    ((mkJob 2).status = JobStatus.completed →
      (mkJob 2).processedRefs = (mkJob 2).totalRefs) :=
  job_progress (JobReachable.create 2)

/-- C8: the polling client treats a job as active exactly when its status
is `pending` or `processing`; after a poll observes a status in
`{completed, failed, cancelled}` no later poll is issued; and no
orchestrator transition (hence no further appended result) leaves a
terminal state. -/
theorem terminal_ends_polling (s : JobStatus) (f : Nat → JobStatus)
    (i j : Nat) (jb jb' : Job)
    (hstop : pollStops (f i) = true) (hij : i < j) (hstep : JobStep jb jb') :
    (isJobActive s = true ↔
        (s = JobStatus.pending ∨ s = JobStatus.processing)) ∧
      (pollStops s = true ↔
        (s = JobStatus.completed ∨ s = JobStatus.failed ∨
          s = JobStatus.cancelled)) ∧
      pollIssued f j = false ∧
      pollStops jb.status = false := by
  refine ⟨?_, ?_, ?_, ?_⟩
  · cases s <;> simp [isJobActive]
  · cases s <;> simp [pollStops]
  · rw [pollIssued, List.all_eq_false]
    exact ⟨i, List.mem_range.mpr hij, by simp [hstop]⟩
  · cases hstep with
    | start hp => simp [pollStops, hp]
    | item o hp hlt => simp [pollStops, hp]
    | finish hp heq => simp [pollStops, hp]
    | cancel hp => simp [pollStops, hp]
    | orchFail hp => rcases hp with hp | hp <;> simp [pollStops, hp]

/-- Witness for C8 at concrete input. -/
theorem terminal_ends_polling_witness :
    (isJobActive JobStatus.pending = true ↔
        (JobStatus.pending = JobStatus.pending ∨
          JobStatus.pending = JobStatus.processing)) ∧
      (pollStops JobStatus.pending = true ↔
        (JobStatus.pending = JobStatus.completed ∨
          JobStatus.pending = JobStatus.failed ∨
          JobStatus.pending = JobStatus.cancelled)) ∧
      pollIssued (fun _ => JobStatus.completed) 1 = false ∧
      pollStops (mkJob 1).status = false :=
  terminal_ends_polling JobStatus.pending (fun _ => JobStatus.completed)
    0 1 (mkJob 1) { mkJob 1 with status := JobStatus.processing }
    (by decide) (by decide) (JobStep.start rfl)

/-- Splitting with `splitNl` always returns at least one line. -/
theorem splitNl_ne_nil (l : List Char) : splitNl l ≠ [] := by
  cases l with
  | nil => simp [splitNl]
  | cons c t =>
    simp only [splitNl]
    split <;> simp

/-- Every line of a whitespace-only character stream is whitespace-only. -/
theorem splitNl_sp (l : List Char) (h : ∀ c ∈ l, isSpC c = true) :
    ∀ ln ∈ splitNl l, ∀ c ∈ ln, isSpC c = true := by
  induction l with
  | nil =>
    intro ln hln
    simp only [splitNl, List.mem_singleton] at hln
    subst hln
    simp
  | cons c t ih =>
    intro ln hln
    simp only [splitNl] at hln
    have ht : ∀ x ∈ t, isSpC x = true :=
      fun x hx => h x (List.mem_cons_of_mem _ hx)
    by_cases hc : c.toNat = 10
    · rw [if_pos hc] at hln
      rcases List.mem_cons.mp hln with rfl | hln'
      · simp
      · exact ih ht ln hln'
    · rw [if_neg hc] at hln
      rcases List.mem_cons.mp hln with rfl | hln'
      · intro x hx
        rcases List.mem_cons.mp hx with rfl | hx'
        · exact h x (List.mem_cons_self _ _)
        · have hh : (splitNl t).headI ∈ splitNl t := by
            cases hsp : splitNl t with
            | nil => exact absurd hsp (splitNl_ne_nil t)
            | cons a as => simp
          exact ih ht _ hh x hx'
      · exact ih ht ln (List.mem_of_mem_tail hln')

/-- A whitespace-only line is blank. -/
theorem blank_of_sp (ln : List Char) (h : ∀ c ∈ ln, isSpC c = true) :
    blankLine ln = true := by
  unfold blankLine
  rw [List.dropWhile_eq_nil_iff.mpr h]
  rfl

/-- A whitespace-only line carries no numbered-list marker. -/
theorem noMarker_of_sp (ln : List Char) (h : ∀ c ∈ ln, isSpC c = true) :
    lineHasMarker ln = false := by
  unfold lineHasMarker
  rw [List.dropWhile_eq_nil_iff.mpr h]

/-- Trimming a whitespace-only character stream yields the empty stream. -/
theorem trim_of_sp (l : List Char) (h : ∀ c ∈ l, isSpC c = true) :
    trimChars l = [] := by
  unfold trimChars
  rw [List.dropWhile_eq_nil_iff.mpr h]
  rfl

/-- Segmenting whitespace-only input yields zero items. -/
theorem segment_ws (s : String) (h : whitespaceOnly s) : segment s = [] := by
  have hsp := splitNl_sp s.data h
  have hany : (splitNl s.data).any lineHasMarker = false := by
    rw [List.any_eq_false]
    intro ln hln
    simp [noMarker_of_sp ln (hsp ln hln)]
  have hfil : (splitNl s.data).filter (fun l => !blankLine l) = [] := by
    rw [List.filter_eq_nil_iff]
    intro ln hln
    simp [blank_of_sp ln (hsp ln hln)]
  simp [segment, hany, hfil]

/-- C6: zero-item submission is rejected before any job exists — when
segmentation yields zero items `submit` fails with `ParsingError` and
returns no job, whitespace-only input segments to zero items, and the
client layer issues no processing request for whitespace-only input. -/
theorem zero_items_rejected (raw1 raw2 : String)
    (hseg : segment raw1 = []) (hws : whitespaceOnly raw2) :
    submit raw1 = Except.error SubmitError.ParsingError ∧
      segment raw2 = [] ∧ handleSubmit raw2 = ClientAction.showError := by
  refine ⟨?_, segment_ws raw2 hws, ?_⟩
  · simp [submit, hseg]
  · have ht : trimChars raw2.data = [] := trim_of_sp _ hws
    simp [handleSubmit, ht]

/-- Witness for C6 at concrete input. -/
theorem zero_items_rejected_witness :
    submit "" = Except.error SubmitError.ParsingError ∧
      segment " \n\t " = [] ∧ handleSubmit " \n\t " = ClientAction.showError :=
  zero_items_rejected "" " \n\t " (by decide)
    (by intro c hc; fin_cases hc <;> decide)

/-- Scanning one more candidate replaces the running maximum exactly on a
strictly higher score. -/
theorem maxSc_cons (f : MatchCandidate → ℚ) (b c : MatchCandidate)
    (t : List MatchCandidate) :
    maxSc f b (c :: t) = maxSc f (if f b < f c then c else b) t := by
  unfold maxSc
  simp only [List.foldl_cons]
  congr 1
  split
  · exact max_eq_right (le_of_lt (by assumption))
  · exact max_eq_left (le_of_not_lt (by assumption))

/-- The selected candidate attains the highest score. -/
theorem argAux_score (f : MatchCandidate → ℚ) (l : List MatchCandidate) :
    ∀ b, f (argAux f b l) = maxSc f b l := by
  induction l with
  | nil => intro b; simp [argAux, maxSc]
  | cons c t ih =>
    intro b
    rw [maxSc_cons]
    by_cases h : f b < f c
    · simp only [argAux, if_pos h]
      exact ih c
    · simp only [argAux, if_neg h]
      exact ih b

/-- The starting score never exceeds the running maximum. -/
theorem le_maxSc (f : MatchCandidate → ℚ) (l : List MatchCandidate) :
    ∀ b, f b ≤ maxSc f b l := by
  induction l with
  | nil => intro b; simp [maxSc]
  | cons c t ih =>
    intro b
    rw [maxSc_cons]
    by_cases h : f b < f c
    · rw [if_pos h]
      exact le_trans (le_of_lt h) (ih c)
    · rw [if_neg h]
      exact ih b

/-- Searching with `find?` keeps the head when the predicate accepts it. -/
theorem findq_cons_true {α : Type} (p : α → Bool) (a : α) (l : List α)
    (h : p a = true) : (a :: l).find? p = some a := by
  simp [List.find?, h]

/-- Searching with `find?` skips the head when the predicate rejects it. -/
theorem findq_cons_false {α : Type} (p : α → Bool) (a : α) (l : List α)
    (h : p a = false) : (a :: l).find? p = l.find? p := by
  simp [List.find?, h]

/-- The selected candidate is the earliest one attaining the highest
score: it is the first list element whose score reaches the maximum. -/
theorem argAux_first (f : MatchCandidate → ℚ) (l : List MatchCandidate) :
    ∀ b, (b :: l).find? (fun x => decide (maxSc f b l ≤ f x)) =
      some (argAux f b l) := by
  induction l with
  | nil =>
    intro b
    simp [maxSc, argAux]
  | cons c t ih =>
    intro b
    by_cases h : f b < f c
    · have hm : maxSc f b (c :: t) = maxSc f c t := by
        rw [maxSc_cons, if_pos h]
      have ha : argAux f b (c :: t) = argAux f c t := by
        simp only [argAux, if_pos h]
      rw [hm, ha]
      have hb : decide (maxSc f c t ≤ f b) = false := by
        simp only [decide_eq_false_iff_not, not_le]
        exact lt_of_lt_of_le h (le_maxSc f t c)
      rw [findq_cons_false (fun x => decide (maxSc f c t ≤ f x)) b (c :: t)
        (by simpa using hb)]
      exact ih c
    · have hm : maxSc f b (c :: t) = maxSc f b t := by
        rw [maxSc_cons, if_neg h]
      have ha : argAux f b (c :: t) = argAux f b t := by
        simp only [argAux, if_neg h]
      rw [hm, ha]
      by_cases hb : maxSc f b t ≤ f b
      · have hbt := ih b
        rw [findq_cons_true (fun x => decide (maxSc f b t ≤ f x)) b t
          (by simpa using hb)] at hbt
        rw [findq_cons_true (fun x => decide (maxSc f b t ≤ f x)) b (c :: t)
          (by simpa using hb)]
        exact hbt
      · have hbf : decide (maxSc f b t ≤ f b) = false := by simpa using hb
        have hcf : decide (maxSc f b t ≤ f c) = false := by
          simp only [decide_eq_false_iff_not, not_le]
          exact lt_of_le_of_lt (le_of_not_lt h) (not_le.mp hb)
        have hbt := ih b
        rw [findq_cons_false (fun x => decide (maxSc f b t ≤ f x)) b t hbf]
          at hbt
        rw [findq_cons_false (fun x => decide (maxSc f b t ≤ f x)) b (c :: t)
          hbf]
        rw [findq_cons_false (fun x => decide (maxSc f b t ≤ f x)) c t hcf]
        exact hbt

/-- C4: resolver decision policy — on a non-empty candidate list the
status is `matched` exactly when the highest word-overlap score reaches
the threshold and `noMatch` exactly when it does not, and the chosen
candidate is the earliest one attaining the highest score. -/
theorem resolver_policy (title : String) (c : MatchCandidate)
    (rest : List MatchCandidate) :
    ((resolve title (c :: rest)).status = ResolutionStatus.matched ↔
        matchThreshold ≤ maxSc (scoreOf title) c rest) ∧
      ((resolve title (c :: rest)).status = ResolutionStatus.noMatch ↔
        maxSc (scoreOf title) c rest < matchThreshold) ∧
      ((c :: rest).find?
          (fun x => decide (maxSc (scoreOf title) c rest ≤ scoreOf title x)) =
        some (argAux (scoreOf title) c rest)) ∧
      ((resolve title (c :: rest)).best =
        if matchThreshold ≤ maxSc (scoreOf title) c rest then
          some (argAux (scoreOf title) c rest) else none) := by
  have hfind := argAux_first (scoreOf title) rest c
  have hs := argAux_score (scoreOf title) rest c
  by_cases h0 : matchThreshold ≤ scoreOf title (argAux (scoreOf title) c rest)
  · have hM : matchThreshold ≤ maxSc (scoreOf title) c rest := hs ▸ h0
    refine ⟨?_, ?_, hfind, ?_⟩
    · simp [resolve, h0, hM]
    · simp [resolve, h0, not_lt.mpr hM]
    · simp [resolve, h0, hM]
  · have hM : ¬ matchThreshold ≤ maxSc (scoreOf title) c rest := hs ▸ h0
    refine ⟨?_, ?_, hfind, ?_⟩
    · simp [resolve, h0, hM]
    · simp [resolve, h0, not_le.mp hM]
    · simp [resolve, h0, hM]

/-- Applying `Char.ofNat` to a small code is the character with that code. -/
theorem char_toNat_ofNat (n : Nat) (h1 : n ≤ 1000) :
    (Char.ofNat n).toNat = n := by
  have hv : n.isValidChar := Or.inl (by omega)
  simp [Char.ofNat, hv, Char.ofNatAux, Char.toNat, UInt32.toNat]

/-- Toggling the case of a character does not change its normalized
code. -/
theorem normCode_toggleCase (c : Char) :
    normCode (toggleCase c) = normCode c := by
  unfold toggleCase normCode
  by_cases hu : isUpC c = true
  · have hb : 65 ≤ c.toNat ∧ c.toNat ≤ 90 := by simpa [isUpC] using hu
    have ht : (Char.ofNat (c.toNat + 32)).toNat = c.toNat + 32 :=
      char_toNat_ofNat _ (by omega)
    have h1 : ¬ isUpC (Char.ofNat (c.toNat + 32)) = true := by
      simp only [isUpC, ht, Bool.and_eq_true, decide_eq_true_eq]
      omega
    have h2 : isLoC (Char.ofNat (c.toNat + 32)) = true := by
      simp only [isLoC, ht, Bool.and_eq_true, decide_eq_true_eq]
      omega
    rw [if_pos hu, if_neg h1, if_pos (by simp [h2]), if_pos hu, ht]
  · rw [if_neg hu]
    by_cases hl : isLoC c = true
    · have hb : 97 ≤ c.toNat ∧ c.toNat ≤ 122 := by simpa [isLoC] using hl
      have ht : (Char.ofNat (c.toNat - 32)).toNat = c.toNat - 32 :=
        char_toNat_ofNat _ (by omega)
      have h1 : isUpC (Char.ofNat (c.toNat - 32)) = true := by
        simp only [isUpC, ht, Bool.and_eq_true, decide_eq_true_eq]
        omega
      rw [if_pos hl, if_pos h1, if_neg hu, if_pos (by simp [hl]), ht]
      congr 1
      omega
    · rw [if_neg hl]

/-- Altering letter case anywhere leaves the normalized code stream
unchanged. -/
theorem normCodes_applyCaseMask (m : List Bool) (l : List Char) :
    normCodes (applyCaseMask m l) = normCodes l := by
  induction l generalizing m with
  | nil => cases m <;> simp [applyCaseMask, normCodes]
  | cons c t ih =>
    cases m with
    | nil => simp [applyCaseMask]
    | cons b mt =>
      have hx : normCode (if b = true then toggleCase c else c) = normCode c := by
        cases b <;> simp [normCode_toggleCase]
      simp only [applyCaseMask, normCodes, List.filterMap_cons, hx]
      have iht := ih mt
      simp only [normCodes] at iht
      cases hnc : normCode c <;> simp [iht]

/-- Removing punctuation leaves the normalized code stream unchanged. -/
theorem normCodes_stripPunct_data (l : List Char) :
    normCodes (l.filter (fun c => (normCode c).isSome)) = normCodes l := by
  induction l with
  | nil => rfl
  | cons c t ih =>
    by_cases hc : (normCode c).isSome = true
    · rw [List.filter_cons_of_pos (by simpa using hc)]
      simp only [normCodes, List.filterMap_cons] at ih ⊢
      cases hnc : normCode c <;> simp [ih]
    · have hnone : normCode c = none := by
        cases hnc : normCode c with
        | none => rfl
        | some v => exact absurd (by simp [hnc]) hc
      rw [List.filter_cons_of_neg (by simpa using hc)]
      simp only [normCodes, List.filterMap_cons, hnone]
      exact ih

/-- Token sets are invariant under case alteration. -/
theorem tokensOf_applyCaseMask (m : List Bool) (s : String) :
    tokensOf (String.mk (applyCaseMask m s.data)) = tokensOf s := by
  unfold tokensOf
  have hd : (String.mk (applyCaseMask m s.data)).data = applyCaseMask m s.data :=
    rfl
  rw [hd, normCodes_applyCaseMask]

/-- Token sets are invariant under punctuation stripping. -/
theorem tokensOf_stripPunct (s : String) :
    tokensOf (stripPunct s) = tokensOf s := by
  unfold tokensOf stripPunct
  have hd : (String.mk (s.data.filter fun c => (normCode c).isSome)).data =
      s.data.filter fun c => (normCode c).isSome := rfl
  rw [hd, normCodes_stripPunct_data]

/-- C5 counterexample: the two titles are identical (hence so are their
normalizations), yet the word-overlap score is `0`, not `1` — the claimed
unconditional "identical implies 1.0" fails when the non-stopword token
set is empty. -/
theorem score_identical_counterexample :
    tokensOf "" = tokensOf "" ∧ wordOverlapScore "" "" = 0 ∧
      wordOverlapScore "" "" ≠ 1 := by
  have h0 : tokensOf "" = (∅ : Finset (List Nat)) := rfl
  have hz : wordOverlapScore "" "" = 0 := by
    unfold wordOverlapScore
    rw [h0]
    simp
  exact ⟨rfl, hz, by rw [hz]; norm_num⟩

/-- C5 (amended): the word-overlap score is symmetric in its titles and
invariant under altering either title's letter case or stripping its
punctuation; it equals `1` for identical normalized titles whose
non-stopword token set is non-empty, and `0` for disjoint token sets. -/
theorem score_algebra (t1 t2 u1 u2 v1 v2 : String) (m : List Bool) :
    wordOverlapScore t1 t2 = wordOverlapScore t2 t1 ∧
      wordOverlapScore (String.mk (applyCaseMask m t1.data)) t2 =
        wordOverlapScore t1 t2 ∧
      wordOverlapScore (stripPunct t1) t2 = wordOverlapScore t1 t2 ∧
      (tokensOf u1 = tokensOf u2 → (tokensOf u1).Nonempty →
        wordOverlapScore u1 u2 = 1) ∧
      (Disjoint (tokensOf v1) (tokensOf v2) → wordOverlapScore v1 v2 = 0) := by
  refine ⟨?_, ?_, ?_, ?_, ?_⟩
  · unfold wordOverlapScore
    rw [Finset.inter_comm, Finset.union_comm]
  · unfold wordOverlapScore
    rw [tokensOf_applyCaseMask]
  · unfold wordOverlapScore
    rw [tokensOf_stripPunct]
  · intro h hne
    unfold wordOverlapScore
    rw [h, Finset.inter_self, Finset.union_self]
    have hc : (0 : ℚ) < ((tokensOf u2).card : ℚ) := by
      exact_mod_cast Finset.card_pos.mpr (h ▸ hne)
    field_simp
  · intro h
    unfold wordOverlapScore
    rw [Finset.disjoint_iff_inter_eq_empty.mp h]
    simp

/-- Witness for C5 (amended) at concrete input. -/
theorem score_algebra_witness :
    tokensOf "Title Alpha" = tokensOf "title ALPHA!" ∧
      (tokensOf "Title Alpha").Nonempty ∧
      Disjoint (tokensOf "alpha") (tokensOf "beta") ∧
      wordOverlapScore "Title Alpha" "title ALPHA!" = 1 ∧
      wordOverlapScore "alpha" "beta" = 0 := by
  have h := score_algebra "The Title." "beta" "Title Alpha" "title ALPHA!"
    "alpha" "beta" [true]
  exact ⟨by decide, by decide, by decide,
    h.2.2.2.1 (by decide) (by decide), h.2.2.2.2 (by decide)⟩

end Pmid
